import Mathlib

/-!
Verification of the Reed-Muench titer calculator (`reedmuench_utils.py` /
`reedmuenchcalculator.py`, function `Titer`).

The embedding follows the Python source closely:
* well labels are strings; `rows` is the fixed list `["A", ..., "H"]`;
* `counts` counts, over all replicates, the occurrences of each row label
  (the Python loop `counts[well] += 1`);
* `accumUninf` / `accumInf` mirror the two accumulation loops that build the
  `uninfected` (A→H) and `infected` (H→A) cumulative dictionaries;
* `percentInfectedList` is the `percentinfected` dictionary, as a list indexed
  in row order A..H, with exact rational arithmetic in place of floats;
* `findFirstBelow` mirrors the `for irow in range(len(rows))` search loop;
* `TiterExponent` performs the validation and returns `startdilution + index`
  as an exact rational, or the error the Python code raises;
* `Titer` applies the final floating-point step
  `dilution**(startdilution + index) / volume` as a real-number computation.
-/

/-- The distinct `ValueError`s raised by the Python `Titer` function. -/
inductive TiterError where
  | InsufficientReplicates
  | InvalidRowLabel
  | FirstDilutionBelow50
  | NoDilutionBelow50
deriving DecidableEq, Repr

/-- Row labels in order: `rows = ['A', 'B', 'C', 'D', 'E', 'F', 'G', 'H']`. -/
def rows : List String := ["A", "B", "C", "D", "E", "F", "G", "H"]

/-- Count `counts[r]`: the number of times label `r` occurs across all replicate
lists (the loop `for replicatewells in infectedwells: for well in
replicatewells: counts[well] += 1`).  Integer-valued, as in Python. -/
def counts (infectedwells : List (List String)) (r : String) : ℤ :=
  (infectedwells.map (fun rep => (rep.count r : ℤ))).sum

/-- The loop `for row in rows: uninfected[row] = n + nreplicates - counts[row];
n = uninfected[row]`, producing the list of `uninfected[row]` values in the
traversal order, starting from accumulator `n`. -/
def accumUninf (nrep : ℤ) (cnt : String → ℤ) (n : ℤ) : List String → List ℤ
  | [] => []
  | r :: rest => (n + nrep - cnt r) :: accumUninf nrep cnt (n + nrep - cnt r) rest

/-- The loop `for row in reverserows: infected[row] = n + counts[row];
n = infected[row]`, producing the list of `infected[row]` values in the
traversal order, starting from accumulator `n`. -/
def accumInf (cnt : String → ℤ) (n : ℤ) : List String → List ℤ
  | [] => []
  | r :: rest => (n + cnt r) :: accumInf cnt (n + cnt r) rest

/-- Percent infected, `percentinfected[row] = 100.0 * infected[row] / (infected[row] +
uninfected[row])` for each row, as a list in row order A..H (the `infected`
loop runs over `reverserows`, so its result list is reversed to line up). -/
def percentInfectedList (nrep : ℤ) (cnt : String → ℤ) : List ℚ :=
  List.zipWith (fun i u => 100 * (i : ℚ) / ((i : ℚ) + (u : ℚ)))
    ((accumInf cnt 0 rows.reverse).reverse)
    (accumUninf nrep cnt 0 rows)

/-- The search loop `for irow in range(len(rows)): if percentinfected[rows[irow]] < 50: ...`:
returns the index (offset by the starting position `i`) of the first entry
`< 50`, or `none` if the loop completes (`else: raise`). -/
def findFirstBelow (pl : List ℚ) (i : ℕ) : Option ℕ :=
  match pl with
  | [] => none
  | p :: rest => if p < 50 then some i else findFirstBelow rest (i + 1)

/-- Interpolation, `index = (percentrowabove50 - 50.0) / (percentrowabove50 - percentrowbelow50)`
where `rowabove50 = rows[i]`, `percentrowbelow50` is the percent of the next
row unless `rowabove50` is the last row (`rows[-1]`), in which case it is 0. -/
def interpIndex (pl : List ℚ) (i : ℕ) : ℚ :=
  (pl.getD i 0 - 50) /
    (pl.getD i 0 - (if i ≠ rows.length - 1 then pl.getD (i + 1) 0 else 0))

/-- The percent-infected list computed by `Titer` for a given input. -/
def percentList (infectedwells : List (List String)) : List ℚ :=
  percentInfectedList (infectedwells.length : ℤ) (counts infectedwells)

/-- The validation and interpolation core of `Titer`: returns the exponent
`startdilution + index` as an exact rational, or the error raised.  The
branches follow the Python source in order: the replicate-count check, the
row-label check inside the counting loop, then the `< 50` search with its
two error exits, then the interpolation. -/
def TiterExponent (infectedwells : List (List String)) : Except TiterError ℚ :=
  if infectedwells.length < 2 then
    .error .InsufficientReplicates
  else if infectedwells.all (fun rep => rep.all (fun w => rows.contains w)) then
    match findFirstBelow (percentList infectedwells) 0 with
    | none => .error .NoDilutionBelow50
    | some 0 => .error .FirstDilutionBelow50
    | some (i + 1) => .ok ((i : ℚ) + interpIndex (percentList infectedwells) i)
  else .error .InvalidRowLabel

/-- Full function `Titer(infectedwells, volume, dilution)`:
`titer = dilution**(startdilution + index) / volume`, or the raised error. -/
noncomputable def Titer (infectedwells : List (List String))
    (volume dilution : ℝ) : Except TiterError ℝ :=
  (TiterExponent infectedwells).map
    (fun e => dilution ^ ((e : ℚ) : ℝ) / volume)

instance {ε α : Type} [DecidableEq ε] [DecidableEq α] : DecidableEq (Except ε α) :=
  fun x y =>
  match x, y with
  | .ok a, .ok b => if h : a = b then .isTrue (by rw [h]) else .isFalse (by simp [h])
  | .error a, .error b => if h : a = b then .isTrue (by rw [h]) else .isFalse (by simp [h])
  | .ok _, .error _ => .isFalse (by simp)
  | .error _, .ok _ => .isFalse (by simp)

/-- A valid input in the sense of the data model: every replicate observation
is a duplicate-free list of labels drawn from `rows`. -/
def ValidAssay (infectedwells : List (List String)) : Prop :=
  ∀ rep ∈ infectedwells, rep.Nodup ∧ ∀ w ∈ rep, w ∈ rows

instance : DecidablePred ValidAssay := fun iw =>
  inferInstanceAs (Decidable (∀ rep ∈ iw, rep.Nodup ∧ ∀ w ∈ rep, w ∈ rows))

/-- Claim-side notion of `count[row]`: the number of replicates containing
that row (the spec's wording), as opposed to the occurrence count the code
accumulates; the two agree on duplicate-free replicates. -/
def specCount (infectedwells : List (List String)) (r : String) : ℤ :=
  ((infectedwells.filter (fun rep => decide (r ∈ rep))).length : ℤ)

/-- The cumulative infected total at row index `i`: the sum of `counts` from
row H up to row `i` (closed form of the `reverserows` accumulation loop). -/
def infTotal (infectedwells : List (List String)) (i : ℕ) : ℤ :=
  ((rows.drop i).map (counts infectedwells)).sum

/-- The cumulative uninfected total at row index `i`: the sum of
`nreplicates - counts` from row A down to row `i` (closed form of the
forward accumulation loop). -/
def unfTotal (infectedwells : List (List String)) (i : ℕ) : ℤ :=
  ((rows.take (i + 1)).map
    (fun r => (infectedwells.length : ℤ) - counts infectedwells r)).sum

/-- Claim-side `percentInfected[row]`, built from the claim's own
definitions: `100 * infected / (infected + uninfected)` with `infected` /
`uninfected` the cumulative sums of the per-replicate membership counts. -/
def specPercent (infectedwells : List (List String)) (i : ℕ) : ℚ :=
  100 * (((rows.drop i).map (specCount infectedwells)).sum : ℚ) /
    ((((rows.drop i).map (specCount infectedwells)).sum : ℚ) +
      (((rows.take (i + 1)).map
        (fun r => (infectedwells.length : ℤ) - specCount infectedwells r)).sum : ℚ))

/-- The claim-side percent-infected sequence for rows A..H. -/
def specPercentList (infectedwells : List (List String)) : List ℚ :=
  (List.range 8).map (specPercent infectedwells)

lemma counts_nil (r : String) : counts [] r = 0 := rfl

lemma counts_cons (rep : List String) (rest : List (List String)) (r : String) :
    counts (rep :: rest) r = (rep.count r : ℤ) + counts rest r := by
  simp [counts]

lemma counts_nonneg (iw : List (List String)) (r : String) : 0 ≤ counts iw r := by
  induction iw with
  | nil => simp [counts_nil]
  | cons rep rest ih =>
    rw [counts_cons]
    positivity

lemma counts_le_length (iw : List (List String)) (r : String)
    (h : ∀ rep ∈ iw, rep.Nodup) : counts iw r ≤ (iw.length : ℤ) := by
  induction iw with
  | nil => simp [counts_nil]
  | cons rep rest ih =>
    have h1 : rep.count r ≤ 1 :=
      List.nodup_iff_count_le_one.mp (h rep (by simp)) r
    have h2 := ih (fun rp hm => h rp (by simp [hm]))
    rw [counts_cons]
    simp only [List.length_cons]
    push_cast
    omega

lemma counts_eq_specCount (iw : List (List String)) (r : String)
    (h : ∀ rep ∈ iw, rep.Nodup) : counts iw r = specCount iw r := by
  induction iw with
  | nil => rfl
  | cons rep rest ih =>
    have hrest := ih (fun rp hm => h rp (by simp [hm]))
    rw [counts_cons, hrest]
    by_cases hm : r ∈ rep
    · have hc : rep.count r = 1 :=
        List.count_eq_one_of_mem (h rep (by simp)) hm
      simp [specCount, List.filter_cons, hm, hc]
      ring
    · have hc : rep.count r = 0 := List.count_eq_zero_of_not_mem hm
      simp [specCount, List.filter_cons, hm, hc]

lemma counts_eq_zero_of_empty (iw : List (List String)) (r : String)
    (h : ∀ rep ∈ iw, rep = []) : counts iw r = 0 := by
  induction iw with
  | nil => rfl
  | cons rep rest ih =>
    have he : rep = [] := h rep (by simp)
    rw [counts_cons, ih (fun rp hm => h rp (by simp [hm])), he]
    simp

lemma counts_eq_length_of_mem (iw : List (List String)) (r : String)
    (h : ∀ rep ∈ iw, rep.Nodup ∧ r ∈ rep) : counts iw r = (iw.length : ℤ) := by
  induction iw with
  | nil => rfl
  | cons rep rest ih =>
    have hc : rep.count r = 1 :=
      List.count_eq_one_of_mem (h rep (by simp)).1 (h rep (by simp)).2
    rw [counts_cons, ih (fun rp hm => h rp (by simp [hm])), hc]
    simp only [List.length_cons]
    push_cast
    ring

lemma counts_eq_zero_of_not_mem (iw : List (List String)) (r : String)
    (h : ∀ rep ∈ iw, r ∉ rep) : counts iw r = 0 := by
  induction iw with
  | nil => rfl
  | cons rep rest ih =>
    have hc : rep.count r = 0 := List.count_eq_zero_of_not_mem (h rep (by simp))
    rw [counts_cons, ih (fun rp hm => h rp (by simp [hm])), hc]
    simp

lemma findFirstBelow_some (pl : List ℚ) (k j : ℕ)
    (h : findFirstBelow pl k = some j) :
    ∃ m, j = k + m ∧ m < pl.length ∧ pl.getD m 0 < 50 ∧
      ∀ m' < m, ¬ (pl.getD m' 0 < 50) := by
  induction pl generalizing k with
  | nil => simp [findFirstBelow] at h
  | cons p rest ih =>
    rw [findFirstBelow] at h
    by_cases hp : p < 50
    · rw [if_pos hp] at h
      obtain rfl : k = j := Option.some.inj h
      exact ⟨0, by omega, by simp, by simpa using hp,
        fun m' hm' => absurd hm' (Nat.not_lt_zero m')⟩
    · rw [if_neg hp] at h
      obtain ⟨m, rfl, hlen, hlt, hall⟩ := ih (k + 1) h
      refine ⟨m + 1, by omega, by simp only [List.length_cons]; omega,
        by simpa using hlt, ?_⟩
      intro m' hm'
      match m' with
      | 0 => simpa using hp
      | Nat.succ m'' =>
        have := hall m'' (by omega)
        simpa using this

lemma titer_ok_inv (iw : List (List String)) (volume dilution : ℝ) (t : ℝ)
    (h : Titer iw volume dilution = .ok t) :
    ∃ e : ℚ, TiterExponent iw = .ok e ∧ t = dilution ^ ((e : ℚ) : ℝ) / volume := by
  rw [Titer] at h
  cases he : TiterExponent iw with
  | error err => rw [he] at h; simp [Except.map] at h
  | ok e =>
    rw [he] at h
    simp only [Except.map, Except.ok.injEq] at h
    exact ⟨e, rfl, h.symm⟩

lemma titerExponent_ok_inv (iw : List (List String)) (e : ℚ)
    (h : TiterExponent iw = .ok e) :
    2 ≤ iw.length ∧
    (iw.all (fun rep => rep.all (fun w => rows.contains w))) = true ∧
    ∃ i : ℕ, findFirstBelow (percentList iw) 0 = some (i + 1) ∧
      e = (i : ℚ) + interpIndex (percentList iw) i := by
  rw [TiterExponent] at h
  by_cases h1 : iw.length < 2
  · rw [if_pos h1] at h; simp at h
  rw [if_neg h1] at h
  by_cases h2 : (iw.all (fun rep => rep.all (fun w => rows.contains w))) = true
  · rw [if_pos h2] at h
    refine ⟨by omega, h2, ?_⟩
    cases hf : findFirstBelow (percentList iw) 0 with
    | none => rw [hf] at h; simp at h
    | some j =>
      rw [hf] at h
      match j with
      | 0 => simp at h
      | Nat.succ i =>
        simp only [Except.ok.injEq] at h
        exact ⟨i, rfl, h.symm⟩
  · rw [if_neg h2] at h; simp at h

lemma percent_bound (a b : ℤ) (ha : 0 ≤ a) (hb : 0 ≤ b) (hab : 0 < a + b) :
    0 ≤ 100 * (a : ℚ) / ((a : ℚ) + (b : ℚ)) ∧
      100 * (a : ℚ) / ((a : ℚ) + (b : ℚ)) ≤ 100 := by
  have hab' : (0 : ℚ) < (a : ℚ) + (b : ℚ) := by exact_mod_cast hab
  have ha' : (0 : ℚ) ≤ (a : ℚ) := by exact_mod_cast ha
  have hb' : (0 : ℚ) ≤ (b : ℚ) := by exact_mod_cast hb
  constructor
  · positivity
  · rw [div_le_iff₀ hab']
    nlinarith

lemma percentList_getD (iw : List (List String)) (i : ℕ) (hi : i < 8) :
    (percentList iw).getD i 0 =
      100 * (infTotal iw i : ℚ) /
        ((infTotal iw i : ℚ) + (unfTotal iw i : ℚ)) := by
  have hrev : rows.reverse = ["H", "G", "F", "E", "D", "C", "B", "A"] := rfl
  interval_cases i <;>
    · simp only [percentList, percentInfectedList, hrev, accumInf, accumUninf,
        rows, infTotal, unfTotal, List.reverse_cons, List.reverse_nil,
        List.nil_append, List.cons_append, List.zipWith,
        List.drop, List.take, List.map, List.sum_cons, List.sum_nil,
        List.getD_cons_zero, List.getD_cons_succ]
      push_cast
      ring_nf

lemma infList_getD (iw : List (List String)) (i : ℕ) (hi : i < 8) :
    ((accumInf (counts iw) 0 rows.reverse).reverse).getD i 0 = infTotal iw i := by
  have hrev : rows.reverse = ["H", "G", "F", "E", "D", "C", "B", "A"] := rfl
  interval_cases i <;>
    · simp only [hrev, accumInf, rows, infTotal, List.reverse_cons,
        List.reverse_nil, List.nil_append, List.cons_append,
        List.drop, List.map, List.sum_cons, List.sum_nil,
        List.getD_cons_zero, List.getD_cons_succ]
      ring

lemma unfList_getD (iw : List (List String)) (i : ℕ) (hi : i < 8) :
    (accumUninf (iw.length : ℤ) (counts iw) 0 rows).getD i 0 = unfTotal iw i := by
  interval_cases i <;>
    · simp only [accumUninf, rows, unfTotal, List.take, List.map,
        List.sum_cons, List.sum_nil, List.getD_cons_zero, List.getD_cons_succ]
      ring

lemma totals_bound (iw : List (List String)) (hval : ValidAssay iw)
    (i : ℕ) (hi : i < 8) :
    0 ≤ infTotal iw i ∧ 0 ≤ unfTotal iw i ∧
      (iw.length : ℤ) ≤ infTotal iw i + unfTotal iw i := by
  have hnd : ∀ rep ∈ iw, rep.Nodup := fun rep hm => (hval rep hm).1
  have hA0 := counts_nonneg iw "A"
  have hB0 := counts_nonneg iw "B"
  have hC0 := counts_nonneg iw "C"
  have hD0 := counts_nonneg iw "D"
  have hE0 := counts_nonneg iw "E"
  have hF0 := counts_nonneg iw "F"
  have hG0 := counts_nonneg iw "G"
  have hH0 := counts_nonneg iw "H"
  have hA1 := counts_le_length iw "A" hnd
  have hB1 := counts_le_length iw "B" hnd
  have hC1 := counts_le_length iw "C" hnd
  have hD1 := counts_le_length iw "D" hnd
  have hE1 := counts_le_length iw "E" hnd
  have hF1 := counts_le_length iw "F" hnd
  have hG1 := counts_le_length iw "G" hnd
  have hH1 := counts_le_length iw "H" hnd
  interval_cases i <;>
    · simp only [infTotal, unfTotal, rows, List.drop, List.take, List.map,
        List.sum_cons, List.sum_nil]
      refine ⟨by linarith, by linarith, by linarith⟩

lemma specPercent_eq_getD (iw : List (List String))
    (hnd : ∀ rep ∈ iw, rep.Nodup) (i : ℕ) (hi : i < 8) :
    specPercent iw i = (percentList iw).getD i 0 := by
  have hc : counts iw = specCount iw :=
    funext (fun r => counts_eq_specCount iw r hnd)
  rw [percentList_getD iw i hi]
  simp only [specPercent, infTotal, unfTotal, hc]

lemma percentList_length (iw : List (List String)) :
    (percentList iw).length = 8 := rfl

lemma percentList_eq_spec (iw : List (List String))
    (hnd : ∀ rep ∈ iw, rep.Nodup) :
    percentList iw = specPercentList iw := by
  apply List.ext_getElem
  · rfl
  intro i h1 h2
  have hi : i < 8 := by rw [percentList_length] at h1; exact h1
  have hs : (specPercentList iw)[i] = specPercent iw i := by
    simp [specPercentList]
  rw [hs, specPercent_eq_getD iw hnd i hi, List.getD_eq_getElem]

lemma all_rows_check_true (iw : List (List String))
    (h : ∀ rep ∈ iw, ∀ w ∈ rep, w ∈ rows) :
    (iw.all (fun rep => rep.all (fun w => rows.contains w))) = true := by
  simp only [List.all_eq_true]
  intro rep hrep w hw
  simpa [List.contains, List.elem_iff] using h rep hrep w hw

lemma all_rows_check_false (iw : List (List String)) (rep : List String)
    (w : String) (hrep : rep ∈ iw) (hw : w ∈ rep) (hnot : w ∉ rows) :
    (iw.all (fun rep => rep.all (fun w => rows.contains w))) = false := by
  cases hc : (iw.all (fun rep => rep.all (fun w => rows.contains w))) with
  | false => rfl
  | true =>
    exfalso
    simp only [List.all_eq_true] at hc
    exact hnot (by simpa [List.contains, List.elem_iff] using hc rep hrep w hw)

lemma findFirstBelow_of (pl : List ℚ) (k m : ℕ) (hlen : m < pl.length)
    (hm : pl.getD m 0 < 50) (hprev : ∀ j < m, ¬ (pl.getD j 0 < 50)) :
    findFirstBelow pl k = some (k + m) := by
  induction pl generalizing k m with
  | nil => simp at hlen
  | cons p rest ih =>
    rw [findFirstBelow]
    match m with
    | 0 =>
      rw [if_pos (by simpa using hm)]
      congr 1
    | Nat.succ m' =>
      rw [if_neg (by simpa using hprev 0 (Nat.succ_pos m'))]
      have := ih (k + 1) m' (by simpa using hlen) (by simpa using hm)
        (fun j hj => by simpa using hprev (j + 1) (by omega))
      rw [this]
      congr 1
      omega

lemma findFirstBelow_none (pl : List ℚ) (k : ℕ)
    (h : ∀ p ∈ pl, ¬ (p < 50)) : findFirstBelow pl k = none := by
  induction pl generalizing k with
  | nil => rfl
  | cons p rest ih =>
    rw [findFirstBelow, if_neg (h p (by simp))]
    exact ih (k + 1) (fun q hq => h q (by simp [hq]))

lemma perc_self (x : ℚ) (hx : x ≠ 0) : 100 * x / x = 100 := by
  field_simp

lemma counts_step (iw : List (List String)) (k : ℕ) (r : String)
    (hrep : ∀ rep ∈ iw, rep.Nodup ∧ ∀ w, w ∈ rep ↔ w ∈ rows.take (k + 1)) :
    counts iw r = if r ∈ rows.take (k + 1) then (iw.length : ℤ) else 0 := by
  by_cases hm : r ∈ rows.take (k + 1)
  · rw [if_pos hm]
    exact counts_eq_length_of_mem iw r
      (fun rep h => ⟨(hrep rep h).1, ((hrep rep h).2 r).mpr hm⟩)
  · rw [if_neg hm]
    exact counts_eq_zero_of_not_mem iw r
      (fun rep h hw => hm (((hrep rep h).2 r).mp hw))

/-- C6: for every input list with fewer than 2 replicate entries and any
volume and dilution, `Titer` fails with `InsufficientReplicates` and returns
no titer. -/
theorem titer_too_few_replicates (iw : List (List String))
    (volume dilution : ℝ) (h : iw.length < 2) :
    Titer iw volume dilution = .error .InsufficientReplicates := by
  rw [Titer, TiterExponent, if_pos h]
  rfl

/-- Witness for C6 at the singleton input `[["A"]]`. -/
theorem titer_too_few_replicates_witness :
    ([["A"]] : List (List String)).length < 2 ∧
      Titer [["A"]] 1 2 = .error .InsufficientReplicates :=
  ⟨by decide, titer_too_few_replicates [["A"]] 1 2 (by decide)⟩

/-- C7: for every input with at least 2 replicates in which some replicate
contains a row label outside A-H, `Titer` fails with `InvalidRowLabel` and
returns no titer. -/
theorem titer_invalid_row_label (iw : List (List String))
    (volume dilution : ℝ) (hn : 2 ≤ iw.length) (rep : List String) (w : String)
    (hrep : rep ∈ iw) (hw : w ∈ rep) (hnot : w ∉ rows) :
    Titer iw volume dilution = .error .InvalidRowLabel := by
  have hfalse := all_rows_check_false iw rep w hrep hw hnot
  rw [Titer, TiterExponent, if_neg (by omega), if_neg (by rw [hfalse]; simp)]
  rfl

/-- Witness for C7 at the input `[["Z"], ["A"]]`. -/
theorem titer_invalid_row_label_witness :
    2 ≤ ([["Z"], ["A"]] : List (List String)).length ∧ "Z" ∉ rows ∧
      Titer [["Z"], ["A"]] 1 2 = .error .InvalidRowLabel :=
  ⟨by decide, by decide,
    titer_invalid_row_label [["Z"], ["A"]] 1 2 (by decide) ["Z"] "Z"
      (by decide) (by decide) (by decide)⟩

/-- C4: for every sample assay with at least 2 replicates in which every
replicate observation is empty, `Titer` fails with `FirstDilutionBelow50`
and returns no titer. -/
theorem titer_all_empty_first_below50 (iw : List (List String))
    (volume dilution : ℝ) (hn : 2 ≤ iw.length)
    (hemp : ∀ rep ∈ iw, rep = []) :
    Titer iw volume dilution = .error .FirstDilutionBelow50 := by
  have hcheck : (iw.all fun rep => rep.all fun w => rows.contains w) = true :=
    all_rows_check_true iw
      (fun rep hr w hw => by rw [hemp rep hr] at hw; cases hw)
  have hc : counts iw = fun _ => 0 :=
    funext (fun r => counts_eq_zero_of_empty iw r hemp)
  have hf : findFirstBelow (percentList iw) 0 = some 0 := by
    have h0 : (percentList iw).getD 0 0 < 50 := by
      rw [percentList_getD iw 0 (by omega)]
      simp [infTotal, rows, hc]
    exact findFirstBelow_of (percentList iw) 0 0 (by rw [percentList_length]; omega)
      h0 (fun j hj => absurd hj (Nat.not_lt_zero j))
  rw [Titer, TiterExponent, if_neg (by omega), if_pos hcheck, hf]
  rfl

/-- Witness for C4 at the input `[[], []]`. -/
theorem titer_all_empty_first_below50_witness :
    2 ≤ ([[], []] : List (List String)).length ∧
      (∀ rep ∈ ([[], []] : List (List String)), rep = []) ∧
      Titer [[], []] 1 2 = .error .FirstDilutionBelow50 :=
  ⟨by decide, by decide,
    titer_all_empty_first_below50 [[], []] 1 2 (by decide) (by decide)⟩

/-- C5: for every sample assay with at least 2 replicates in which every
replicate reports infection in every row A-H, `Titer` fails with
`NoDilutionBelow50` and returns no titer. -/
theorem titer_all_infected_no_below50 (iw : List (List String))
    (volume dilution : ℝ) (hn : 2 ≤ iw.length)
    (hall : ∀ rep ∈ iw, rep.Nodup ∧ ∀ w, w ∈ rep ↔ w ∈ rows) :
    Titer iw volume dilution = .error .NoDilutionBelow50 := by
  have hcheck : (iw.all fun rep => rep.all fun w => rows.contains w) = true :=
    all_rows_check_true iw (fun rep hm w hw => ((hall rep hm).2 w).mp hw)
  have hcA : counts iw "A" = (iw.length : ℤ) := counts_eq_length_of_mem iw "A"
    (fun rep hm => ⟨(hall rep hm).1, ((hall rep hm).2 "A").mpr (by decide)⟩)
  have hcB : counts iw "B" = (iw.length : ℤ) := counts_eq_length_of_mem iw "B"
    (fun rep hm => ⟨(hall rep hm).1, ((hall rep hm).2 "B").mpr (by decide)⟩)
  have hcC : counts iw "C" = (iw.length : ℤ) := counts_eq_length_of_mem iw "C"
    (fun rep hm => ⟨(hall rep hm).1, ((hall rep hm).2 "C").mpr (by decide)⟩)
  have hcD : counts iw "D" = (iw.length : ℤ) := counts_eq_length_of_mem iw "D"
    (fun rep hm => ⟨(hall rep hm).1, ((hall rep hm).2 "D").mpr (by decide)⟩)
  have hcE : counts iw "E" = (iw.length : ℤ) := counts_eq_length_of_mem iw "E"
    (fun rep hm => ⟨(hall rep hm).1, ((hall rep hm).2 "E").mpr (by decide)⟩)
  have hcF : counts iw "F" = (iw.length : ℤ) := counts_eq_length_of_mem iw "F"
    (fun rep hm => ⟨(hall rep hm).1, ((hall rep hm).2 "F").mpr (by decide)⟩)
  have hcG : counts iw "G" = (iw.length : ℤ) := counts_eq_length_of_mem iw "G"
    (fun rep hm => ⟨(hall rep hm).1, ((hall rep hm).2 "G").mpr (by decide)⟩)
  have hcH : counts iw "H" = (iw.length : ℤ) := counts_eq_length_of_mem iw "H"
    (fun rep hm => ⟨(hall rep hm).1, ((hall rep hm).2 "H").mpr (by decide)⟩)
  have hnq : (0 : ℚ) < ((iw.length : ℤ) : ℚ) := by
    have : (0 : ℤ) < (iw.length : ℤ) := by exact_mod_cast (by omega : 0 < iw.length)
    exact_mod_cast this
  have hf : findFirstBelow (percentList iw) 0 = none := by
    apply findFirstBelow_none
    intro p hp
    obtain ⟨i, hi, hpe⟩ := List.mem_iff_getElem.mp hp
    rw [percentList_length] at hi
    rw [← hpe, ← List.getD_eq_getElem (percentList iw) 0
      (by rw [percentList_length]; exact hi)]
    rw [percentList_getD iw i hi]
    have hunf : unfTotal iw i = 0 := by
      interval_cases i <;>
        simp [unfTotal, rows, hcA, hcB, hcC, hcD, hcE, hcF, hcG, hcH]
    have hinf : (iw.length : ℤ) ≤ infTotal iw i := by
      have h0 : (0 : ℤ) ≤ (iw.length : ℤ) := by positivity
      interval_cases i <;>
        · simp only [infTotal, rows, List.drop, List.map, List.sum_cons,
            List.sum_nil, hcA, hcB, hcC, hcD, hcE, hcF, hcG, hcH]
          linarith
    rw [hunf]
    have hinfq : (0 : ℚ) < (infTotal iw i : ℚ) := by
      have : (0 : ℤ) < infTotal iw i := by
        have : (0 : ℤ) < (iw.length : ℤ) := by exact_mod_cast (by omega : 0 < iw.length)
        linarith
      exact_mod_cast this
    rw [Int.cast_zero, add_zero, perc_self _ (ne_of_gt hinfq)]
    norm_num
  rw [Titer, TiterExponent, if_neg (by omega), if_pos hcheck, hf]
  rfl

/-- Witness for C5: two replicates each listing all rows A-H. -/
theorem titer_all_infected_no_below50_witness :
    2 ≤ ([rows, rows] : List (List String)).length ∧
      (∀ rep ∈ ([rows, rows] : List (List String)),
        rep.Nodup ∧ ∀ w, w ∈ rep ↔ w ∈ rows) ∧
      Titer [rows, rows] 1 2 = .error .NoDilutionBelow50 := by
  have hall : ∀ rep ∈ ([rows, rows] : List (List String)),
      rep.Nodup ∧ ∀ w, w ∈ rep ↔ w ∈ rows := by
    intro rep hm
    rcases List.mem_cons.mp hm with h | hm2
    · subst h; exact ⟨by decide, fun w => Iff.rfl⟩
    · rcases List.mem_cons.mp hm2 with h | h
      · subst h; exact ⟨by decide, fun w => Iff.rfl⟩
      · cases h
  exact ⟨by decide, hall,
    titer_all_infected_no_below50 [rows, rows] 1 2 (by decide) hall⟩

/-- C8: for every valid input (at least 2 replicates, duplicate-free subsets
of rows A-H), every computed `percentInfected` value lies in `[0, 100]`. -/
theorem percentInfected_in_range (iw : List (List String))
    (hval : ValidAssay iw) (hn : 2 ≤ iw.length) (i : ℕ) (hi : i < 8) :
    0 ≤ (percentList iw).getD i 0 ∧ (percentList iw).getD i 0 ≤ 100 := by
  obtain ⟨h1, h2, h3⟩ := totals_bound iw hval i hi
  have h4 : (2 : ℤ) ≤ (iw.length : ℤ) := by exact_mod_cast hn
  rw [percentList_getD iw i hi]
  exact percent_bound _ _ h1 h2 (by linarith)

/-- Witness for C8 at the spec's concrete three-replicate sample, row D. -/
theorem percentInfected_in_range_witness :
    ValidAssay [["A","B","C","D"], ["A","B","C"], ["A","B","C","D"]] ∧
      2 ≤ ([["A","B","C","D"], ["A","B","C"], ["A","B","C","D"]] :
        List (List String)).length ∧ 3 < 8 ∧
      (0 ≤ (percentList [["A","B","C","D"], ["A","B","C"], ["A","B","C","D"]]).getD 3 0 ∧
        (percentList [["A","B","C","D"], ["A","B","C"], ["A","B","C","D"]]).getD 3 0 ≤ 100) :=
  ⟨by decide, by decide, by decide,
    percentInfected_in_range [["A","B","C","D"], ["A","B","C"], ["A","B","C","D"]]
      (by decide) (by decide) 3 (by decide)⟩

/-- C9: for every valid input, the denominator `infected[row] +
uninfected[row]` of the percent computation is strictly positive for every
row, so the division never divides by zero. -/
theorem percent_denominator_pos (iw : List (List String))
    (hval : ValidAssay iw) (hn : 2 ≤ iw.length) (i : ℕ) (hi : i < 8) :
    0 < ((accumInf (counts iw) 0 rows.reverse).reverse).getD i 0 +
        (accumUninf (iw.length : ℤ) (counts iw) 0 rows).getD i 0 := by
  rw [infList_getD iw i hi, unfList_getD iw i hi]
  obtain ⟨h1, h2, h3⟩ := totals_bound iw hval i hi
  have h4 : (2 : ℤ) ≤ (iw.length : ℤ) := by exact_mod_cast hn
  linarith

/-- Witness for C9 at the spec's concrete three-replicate sample, row E. -/
theorem percent_denominator_pos_witness :
    ValidAssay [["A","B","C","D"], ["A","B","C"], ["A","B","C","D"]] ∧
      2 ≤ ([["A","B","C","D"], ["A","B","C"], ["A","B","C","D"]] :
        List (List String)).length ∧ 4 < 8 ∧
      0 < ((accumInf (counts [["A","B","C","D"], ["A","B","C"], ["A","B","C","D"]]) 0
            rows.reverse).reverse).getD 4 0 +
          (accumUninf (([["A","B","C","D"], ["A","B","C"], ["A","B","C","D"]] :
            List (List String)).length : ℤ)
            (counts [["A","B","C","D"], ["A","B","C"], ["A","B","C","D"]]) 0 rows).getD 4 0 :=
  ⟨by decide, by decide, by decide,
    percent_denominator_pos [["A","B","C","D"], ["A","B","C"], ["A","B","C","D"]]
      (by decide) (by decide) 4 (by decide)⟩

/-- C10: on every valid input where `Titer` succeeds, the selected
`rowabove50` has index at most 6 (never the last row H, so the
`percentrowbelow50 = 0` branch is unreachable), `pAbove ≥ 50`, `pBelow < 50`,
the interpolation denominator `pAbove - pBelow` is strictly positive, and
the index satisfies `0 ≤ index < 1`. -/
theorem rowabove50_not_last_and_index_bounds (iw : List (List String))
    (volume dilution : ℝ) (t : ℝ) (hval : ValidAssay iw)
    (hok : Titer iw volume dilution = .ok t) :
    ∃ i : ℕ, findFirstBelow (percentList iw) 0 = some (i + 1) ∧ i < 7 ∧
      50 ≤ (percentList iw).getD i 0 ∧
      (percentList iw).getD (i + 1) 0 < 50 ∧
      0 < (percentList iw).getD i 0 - (percentList iw).getD (i + 1) 0 ∧
      interpIndex (percentList iw) i =
        ((percentList iw).getD i 0 - 50) /
          ((percentList iw).getD i 0 - (percentList iw).getD (i + 1) 0) ∧
      0 ≤ interpIndex (percentList iw) i ∧
      interpIndex (percentList iw) i < 1 := by
  obtain ⟨e, hexp, -⟩ := titer_ok_inv iw volume dilution t hok
  obtain ⟨hn, hcheck, i, hfind, he⟩ := titerExponent_ok_inv iw e hexp
  obtain ⟨m, hm, hmlen, hmlt, hprev⟩ := findFirstBelow_some _ 0 _ hfind
  have hmi : m = i + 1 := by omega
  subst hmi
  rw [percentList_length] at hmlen
  have hi7 : i < 7 := by omega
  have hAbove : 50 ≤ (percentList iw).getD i 0 :=
    not_lt.mp (hprev i (by omega))
  have hd : 0 < (percentList iw).getD i 0 - (percentList iw).getD (i + 1) 0 := by
    linarith
  have hne : i ≠ rows.length - 1 := by
    have : rows.length - 1 = 7 := rfl
    omega
  have hIdx : interpIndex (percentList iw) i =
      ((percentList iw).getD i 0 - 50) /
        ((percentList iw).getD i 0 - (percentList iw).getD (i + 1) 0) := by
    rw [interpIndex, if_pos hne]
  refine ⟨i, hfind, hi7, hAbove, hmlt, hd, hIdx, ?_, ?_⟩
  · rw [hIdx]
    apply div_nonneg (by linarith) (by linarith)
  · rw [hIdx, div_lt_one hd]
    linarith

/-- Witness for C10 at the spec's concrete three-replicate sample. -/
theorem rowabove50_not_last_and_index_bounds_witness :
    ValidAssay [["A","B","C","D"], ["A","B","C"], ["A","B","C","D"]] ∧
      ∃ i : ℕ,
        findFirstBelow (percentList
          [["A","B","C","D"], ["A","B","C"], ["A","B","C","D"]]) 0 = some (i + 1) ∧
        i < 7 ∧
        50 ≤ (percentList
          [["A","B","C","D"], ["A","B","C"], ["A","B","C","D"]]).getD i 0 ∧
        (percentList
          [["A","B","C","D"], ["A","B","C"], ["A","B","C","D"]]).getD (i + 1) 0 < 50 ∧
        0 < (percentList
            [["A","B","C","D"], ["A","B","C"], ["A","B","C","D"]]).getD i 0 -
          (percentList
            [["A","B","C","D"], ["A","B","C"], ["A","B","C","D"]]).getD (i + 1) 0 ∧
        interpIndex (percentList
          [["A","B","C","D"], ["A","B","C"], ["A","B","C","D"]]) i =
          ((percentList
            [["A","B","C","D"], ["A","B","C"], ["A","B","C","D"]]).getD i 0 - 50) /
            ((percentList
              [["A","B","C","D"], ["A","B","C"], ["A","B","C","D"]]).getD i 0 -
              (percentList
                [["A","B","C","D"], ["A","B","C"], ["A","B","C","D"]]).getD (i + 1) 0) ∧
        0 ≤ interpIndex (percentList
          [["A","B","C","D"], ["A","B","C"], ["A","B","C","D"]]) i ∧
        interpIndex (percentList
          [["A","B","C","D"], ["A","B","C"], ["A","B","C","D"]]) i < 1 := by
  have he : TiterExponent [["A","B","C","D"], ["A","B","C"], ["A","B","C","D"]]
      = .ok (13/4) := by with_unfolding_all decide
  exact ⟨by decide,
    rowabove50_not_last_and_index_bounds
      [["A","B","C","D"], ["A","B","C"], ["A","B","C","D"]] 1 2
      ((2 : ℝ) ^ (((13/4 : ℚ) : ℚ) : ℝ) / 1) (by decide)
      (by rw [Titer, he]; rfl)⟩

/-- C1: for every valid sample assay (at least 2 replicates, duplicate-free
subsets of rows A-H) and assay parameters (volume > 0, dilution > 1),
whenever `Titer` returns without error its result equals
`dilution ^ (startDilution + index) / volume`, where the percent-infected
values, `rowAbove50` (the row immediately preceding the first row with
percent < 50, at zero-based position `i`), `pAbove`, `pBelow` (next row's
percent, or 0 if `rowAbove50` is H) and
`index = (pAbove - 50) / (pAbove - pBelow)` are the claim's own definitions
built from replicate-membership counts (`specPercent`). -/
theorem titer_ok_matches_spec_formula (iw : List (List String))
    (volume dilution : ℝ) (t : ℝ) (hval : ValidAssay iw)
    (hn : 2 ≤ iw.length) (hv : 0 < volume) (hd : 1 < dilution)
    (hok : Titer iw volume dilution = .ok t) :
    ∃ i : ℕ, findFirstBelow (specPercentList iw) 0 = some (i + 1) ∧
      t = dilution ^
          (((i : ℚ) + (specPercent iw i - 50) /
            (specPercent iw i -
              (if i = 7 then (0 : ℚ) else specPercent iw (i + 1)))) : ℝ)
        / volume := by
  obtain ⟨e, hexp, ht⟩ := titer_ok_inv iw volume dilution t hok
  obtain ⟨-, hcheck, i, hfind, he⟩ := titerExponent_ok_inv iw e hexp
  have hnd : ∀ rep ∈ iw, rep.Nodup := fun rep hm => (hval rep hm).1
  have hbridge := percentList_eq_spec iw hnd
  obtain ⟨m, hm, hmlen, -, -⟩ := findFirstBelow_some _ 0 _ hfind
  have hi8 : i + 1 < 8 := by
    rw [percentList_length] at hmlen; omega
  have h7 : i ≠ 7 := by omega
  have hne : i ≠ rows.length - 1 := by
    have : rows.length - 1 = 7 := rfl
    omega
  have hiq : e = (i : ℚ) + (specPercent iw i - 50) /
      (specPercent iw i -
        (if i = 7 then (0 : ℚ) else specPercent iw (i + 1))) := by
    rw [he, interpIndex, if_pos hne, if_neg h7,
      specPercent_eq_getD iw hnd i (by omega),
      specPercent_eq_getD iw hnd (i + 1) hi8]
  refine ⟨i, by rw [← hbridge]; exact hfind, ?_⟩
  rw [ht, hiq, if_neg h7]
  congr 2
  push_cast
  ring

/-- Witness for C1 at the spec's concrete three-replicate sample. -/
theorem titer_ok_matches_spec_formula_witness :
    ValidAssay [["A","B","C","D"], ["A","B","C"], ["A","B","C","D"]] ∧
      2 ≤ ([["A","B","C","D"], ["A","B","C"], ["A","B","C","D"]] :
        List (List String)).length ∧
      (0 : ℝ) < 1 ∧ (1 : ℝ) < 2 ∧
      ∃ i : ℕ,
        findFirstBelow (specPercentList
          [["A","B","C","D"], ["A","B","C"], ["A","B","C","D"]]) 0 = some (i + 1) ∧
        (2 : ℝ) ^ (((13/4 : ℚ) : ℚ) : ℝ) / 1 = (2 : ℝ) ^
          (((i : ℚ) + (specPercent
              [["A","B","C","D"], ["A","B","C"], ["A","B","C","D"]] i - 50) /
            (specPercent
              [["A","B","C","D"], ["A","B","C"], ["A","B","C","D"]] i -
              (if i = 7 then (0 : ℚ) else specPercent
                [["A","B","C","D"], ["A","B","C"], ["A","B","C","D"]] (i + 1)))) : ℝ)
          / 1 := by
  have he : TiterExponent [["A","B","C","D"], ["A","B","C"], ["A","B","C","D"]]
      = .ok (13/4) := by with_unfolding_all decide
  exact ⟨by decide, by decide, one_pos, one_lt_two,
    titer_ok_matches_spec_formula
      [["A","B","C","D"], ["A","B","C"], ["A","B","C","D"]] 1 2
      ((2 : ℝ) ^ (((13/4 : ℚ) : ℚ) : ℝ) / 1) (by decide) (by decide)
      one_pos one_lt_two (by rw [Titer, he]; rfl)⟩

lemma step_entry_high (iw : List (List String)) (k j : ℕ) (hn : 2 ≤ iw.length)
    (hk : k ≤ 6) (hj : j ≤ k)
    (hstep : counts iw =
      fun r => if r ∈ rows.take (k + 1) then (iw.length : ℤ) else 0) :
    (percentList iw).getD j 0 = 100 := by
  have hnq : (0 : ℚ) < (iw.length : ℚ) := by
    exact_mod_cast (by omega : 0 < iw.length)
  rw [percentList_getD iw j (by omega)]
  have hj6 : j ≤ 6 := by omega
  interval_cases j <;> interval_cases k <;>
  · simp +decide [infTotal, unfTotal, rows, hstep]
    exact perc_self _ (ne_of_gt (by push_cast; linarith))

lemma step_entry_low (iw : List (List String)) (k : ℕ) (hn : 2 ≤ iw.length)
    (hk : k ≤ 6)
    (hstep : counts iw =
      fun r => if r ∈ rows.take (k + 1) then (iw.length : ℤ) else 0) :
    (percentList iw).getD (k + 1) 0 = 0 := by
  rw [percentList_getD iw (k + 1) (by omega)]
  interval_cases k <;>
    simp +decide [infTotal, unfTotal, rows, hstep]

/-- C2: for every assay with at least 2 replicates, volume > 0, dilution > 1,
and 0 ≤ k ≤ 6, if every replicate reports infection in exactly rows A..k and
nothing below, `Titer` succeeds and returns `dilution ^ (k + 0.5) / volume`
(`pAbove = 100`, `pBelow = 0`, `index = 0.5`, `startDilution = k`). -/
theorem titer_monotonic_pattern (iw : List (List String))
    (volume dilution : ℝ) (k : ℕ) (hn : 2 ≤ iw.length) (hk : k ≤ 6)
    (hv : 0 < volume) (hd : 1 < dilution)
    (hrep : ∀ rep ∈ iw, rep.Nodup ∧ ∀ w, w ∈ rep ↔ w ∈ rows.take (k + 1)) :
    Titer iw volume dilution =
      .ok (dilution ^ (((k : ℚ) + 1/2 : ℚ) : ℝ) / volume) := by
  have hcheck : (iw.all fun rep => rep.all fun w => rows.contains w) = true :=
    all_rows_check_true iw
      (fun rep hm w hw => List.take_subset _ _ (((hrep rep hm).2 w).mp hw))
  have hstep : counts iw =
      fun r => if r ∈ rows.take (k + 1) then (iw.length : ℤ) else 0 :=
    funext (fun r => counts_step iw k r hrep)
  have hne7 : k ≠ rows.length - 1 := by
    have : rows.length - 1 = 7 := rfl
    omega
  have hf : findFirstBelow (percentList iw) 0 = some (k + 1) := by
    have h0 := findFirstBelow_of (percentList iw) 0 (k + 1)
      (by rw [percentList_length]; omega)
      (by rw [step_entry_low iw k hn hk hstep]; norm_num)
      (fun j hj => by
        rw [step_entry_high iw k j hn hk (by omega) hstep]; norm_num)
    simpa using h0
  have hIdx : interpIndex (percentList iw) k = 1/2 := by
    rw [interpIndex, if_pos hne7, step_entry_high iw k k hn hk le_rfl hstep,
      step_entry_low iw k hn hk hstep]
    norm_num
  have hexp : TiterExponent iw = .ok ((k : ℚ) + 1/2) := by
    rw [TiterExponent, if_neg (by omega), if_pos hcheck, hf]
    change Except.ok ((k : ℚ) + interpIndex (percentList iw) k) = _
    rw [hIdx]
  rw [Titer, hexp]
  rfl

/-- Witness for C2 at `k = 1` with two replicates infected in rows A and B. -/
theorem titer_monotonic_pattern_witness :
    2 ≤ ([["A","B"], ["A","B"]] : List (List String)).length ∧ (1 : ℕ) ≤ 6 ∧
      (0 : ℝ) < 1 ∧ (1 : ℝ) < 2 ∧
      (∀ rep ∈ ([["A","B"], ["A","B"]] : List (List String)),
        rep.Nodup ∧ ∀ w, w ∈ rep ↔ w ∈ rows.take (1 + 1)) ∧
      Titer [["A","B"], ["A","B"]] 1 2 =
        .ok ((2 : ℝ) ^ ((((1 : ℕ) : ℚ) + 1/2 : ℚ) : ℝ) / 1) := by
  have hrep : ∀ rep ∈ ([["A","B"], ["A","B"]] : List (List String)),
      rep.Nodup ∧ ∀ w, w ∈ rep ↔ w ∈ rows.take (1 + 1) := by
    intro rep hm
    rcases List.mem_cons.mp hm with h | hm2
    · subst h; exact ⟨by decide, fun w => Iff.rfl⟩
    · rcases List.mem_cons.mp hm2 with h | h
      · subst h; exact ⟨by decide, fun w => Iff.rfl⟩
      · cases h
  exact ⟨by decide, by decide, one_pos, one_lt_two, hrep,
    titer_monotonic_pattern [["A","B"], ["A","B"]] 1 2 1 (by decide) (by decide)
      one_pos one_lt_two hrep⟩

/-- C3 counterexample: at the concrete scenario
`[[A,B,C,D],[A,B,C],[A,B,C,D]]`, the cumulative percent infected at row D is
200/3 (≈ 66.7%), which is not `< 50`, so the percent sequence does not cross
50% between rows C and D as claimed. -/
theorem scenario_crossing_counterexample :
    (percentList [["A","B","C","D"], ["A","B","C"], ["A","B","C","D"]]).getD 3 0
        = 200/3 ∧
      ¬ ((percentList
        [["A","B","C","D"], ["A","B","C"], ["A","B","C","D"]]).getD 3 0 < 50) := by
  constructor <;> with_unfolding_all decide

/-- C3 amended: at the concrete scenario with volume 0.05 and dilution 10,
the counts are A=3, B=3, C=3, D=2, E=F=G=H=0 as claimed, but the percent
sequence crosses 50% between row D (200/3) and row E (0), so the algorithm of
spec section 4.1 steps 3-10 yields `rowAbove50 = D`, `startDilution = 3`,
`index = 1/4`, and `Titer` returns `10 ^ (3 + 1/4) / 0.05`. -/
theorem scenario_titer_value :
    counts [["A","B","C","D"], ["A","B","C"], ["A","B","C","D"]] "A" = 3 ∧
    counts [["A","B","C","D"], ["A","B","C"], ["A","B","C","D"]] "B" = 3 ∧
    counts [["A","B","C","D"], ["A","B","C"], ["A","B","C","D"]] "C" = 3 ∧
    counts [["A","B","C","D"], ["A","B","C"], ["A","B","C","D"]] "D" = 2 ∧
    counts [["A","B","C","D"], ["A","B","C"], ["A","B","C","D"]] "E" = 0 ∧
    counts [["A","B","C","D"], ["A","B","C"], ["A","B","C","D"]] "F" = 0 ∧
    counts [["A","B","C","D"], ["A","B","C"], ["A","B","C","D"]] "G" = 0 ∧
    counts [["A","B","C","D"], ["A","B","C"], ["A","B","C","D"]] "H" = 0 ∧
    (percentList [["A","B","C","D"], ["A","B","C"], ["A","B","C","D"]]).getD 2 0
      = 100 ∧
    (percentList [["A","B","C","D"], ["A","B","C"], ["A","B","C","D"]]).getD 3 0
      = 200/3 ∧
    (percentList [["A","B","C","D"], ["A","B","C"], ["A","B","C","D"]]).getD 4 0
      = 0 ∧
    findFirstBelow
      (percentList [["A","B","C","D"], ["A","B","C"], ["A","B","C","D"]]) 0
      = some 4 ∧
    TiterExponent [["A","B","C","D"], ["A","B","C"], ["A","B","C","D"]]
      = .ok (3 + 1/4) ∧
    Titer [["A","B","C","D"], ["A","B","C"], ["A","B","C","D"]] (0.05) 10
      = .ok ((10 : ℝ) ^ (((3 + 1/4 : ℚ) : ℚ) : ℝ) / (0.05 : ℝ)) := by
  have he : TiterExponent [["A","B","C","D"], ["A","B","C"], ["A","B","C","D"]]
      = .ok (3 + 1/4) := by with_unfolding_all decide
  refine ⟨by decide, by decide, by decide, by decide, by decide, by decide,
    by decide, by decide, ?_, ?_, ?_, ?_, he, ?_⟩
  · with_unfolding_all decide
  · with_unfolding_all decide
  · with_unfolding_all decide
  · with_unfolding_all decide
  · rw [Titer, he]
    rfl

